import Mathlib

/-!
Verification of the C API boundary types of the concrete-cpu backend
(`src/backends/concrete-cpu/src/c_api/types.rs`): the `Uint128` little-endian
value type, the `CsprngVtable` dispatch table, and the `ScratchStatus` /
`Parallelism` C enumerations, together with the CSPRNG capability contract and
the overflow-checked scratch sizing convention the spec attaches to them.

Bytes are modelled as natural numbers below 256; machine-level `u128` / `usize`
values are natural numbers reduced modulo `2 ^ 128` / bounded by `2 ^ 64 - 1`
where overflow matters.
-/

/-- Little-endian decode of a list of bytes (byte 0 is least significant);
models `u128::from_le_bytes` on a 16-byte array. -/
def fromLeBytes : List Nat → Nat
  | [] => 0
  | b :: rest => b + 256 * fromLeBytes rest

/-- Little-endian encode of a natural number into `k` bytes; models
`u128::to_le_bytes` when `k = 16`. -/
def toLeBytes : Nat → Nat → List Nat
  | 0, _ => []
  | k + 1, n => n % 256 :: toLeBytes k (n / 256)

/-- `Uint128` from the source: a value type holding exactly 16 raw bytes in
little-endian order, with no other fields (no padding in the model: the data
is exactly the 16 bytes).  Every 16-byte pattern is a valid value, so
construction carries no validation beyond the byte bounds inherent to `u8`. -/
structure Uint128 where
  little_endian_bytes : List Nat
  length_eq : little_endian_bytes.length = 16
  bytes_lt : ∀ x ∈ little_endian_bytes, x < 256

/-- Decode a `Uint128` to the native 128-bit unsigned integer, as the source
does with `u128::from_le_bytes(self.little_endian_bytes)`. -/
def u128_from_le_bytes (u : Uint128) : Nat :=
  fromLeBytes u.little_endian_bytes

theorem toLeBytes_length (k n : Nat) : (toLeBytes k n).length = k := by
  induction k generalizing n with
  | zero => rfl
  | succ k ih => simp [toLeBytes, ih]

theorem toLeBytes_lt (k n : Nat) : ∀ x ∈ toLeBytes k n, x < 256 := by
  induction k generalizing n with
  | zero => intro x hx; simp [toLeBytes] at hx
  | succ k ih =>
    intro x hx
    simp only [toLeBytes, List.mem_cons] at hx
    rcases hx with h | h
    · omega
    · exact ih _ x h

/-- Encode a natural number as a `Uint128` (16 little-endian bytes); models
`u128::to_le_bytes`. -/
def u128_to_le_bytes (n : Nat) : Uint128 :=
  ⟨toLeBytes 16 n, toLeBytes_length 16 n, toLeBytes_lt 16 n⟩

theorem Uint128.ext_bytes {a b : Uint128}
    (h : a.little_endian_bytes = b.little_endian_bytes) : a = b := by
  cases a; cases b; simp only at h; subst h; rfl

theorem toLeBytes_fromLeBytes (l : List Nat) (h : ∀ x ∈ l, x < 256) :
    toLeBytes l.length (fromLeBytes l) = l := by
  induction l with
  | nil => rfl
  | cons x rest ih =>
    have hx : x < 256 := h x (List.mem_cons_self x rest)
    have hxmod : (x + 256 * fromLeBytes rest) % 256 = x := by
      rw [Nat.add_mul_mod_self_left]
      exact Nat.mod_eq_of_lt hx
    have hxdiv : (x + 256 * fromLeBytes rest) / 256 = fromLeBytes rest := by
      rw [Nat.add_mul_div_left _ _ (show (0 : Nat) < 256 by omega)]
      rw [Nat.div_eq_of_lt hx, Nat.zero_add]
    simp only [List.length_cons, toLeBytes, fromLeBytes, hxmod, hxdiv]
    exact congrArg (x :: ·) (ih fun y hy => h y (List.mem_cons_of_mem x hy))

theorem fromLeBytes_toLeBytes (k n : Nat) :
    fromLeBytes (toLeBytes k n) = n % 256 ^ k := by
  induction k generalizing n with
  | zero => simp [toLeBytes, fromLeBytes, Nat.mod_one]
  | succ k ih =>
    have h256 : (256 : Nat) ^ (k + 1) = 256 * 256 ^ k := by
      rw [pow_succ, Nat.mul_comm]
    simp only [toLeBytes, fromLeBytes, ih]
    rw [h256, Nat.mod_mul]

theorem fromLeBytes_lt (l : List Nat) (h : ∀ x ∈ l, x < 256) :
    fromLeBytes l < 256 ^ l.length := by
  induction l with
  | nil => simp [fromLeBytes]
  | cons x rest ih =>
    have hx : x < 256 := h x (List.mem_cons_self x rest)
    have hr : fromLeBytes rest < 256 ^ rest.length :=
      ih fun y hy => h y (List.mem_cons_of_mem x hy)
    have hpos : 1 ≤ (256 : Nat) ^ rest.length := Nat.one_le_pow _ _ (by omega)
    simp only [fromLeBytes, List.length_cons]
    rw [pow_succ, Nat.mul_comm]
    omega

theorem u128_from_le_bytes_lt (u : Uint128) : u128_from_le_bytes u < 2 ^ 128 := by
  have := fromLeBytes_lt u.little_endian_bytes u.bytes_lt
  rw [u.length_eq] at this
  calc u128_from_le_bytes u < 256 ^ 16 := this
    _ = 2 ^ 128 := by norm_num

/-- Decode into the 128-bit range, bundling the bound; used to state that
decoding is a bijection onto the 128-bit unsigned integers. -/
def u128_decode (u : Uint128) : Fin (2 ^ 128) :=
  ⟨u128_from_le_bytes u, u128_from_le_bytes_lt u⟩

/-- Claim C1: for every 16-byte pattern, decoding a `Uint128` to the native
128-bit unsigned integer (little-endian) and re-encoding that integer back to
16 little-endian bytes yields exactly the original bytes; conversely encoding
any value below `2 ^ 128` and decoding it returns that value, so decode and
encode form a bijection between 16-byte arrays and 128-bit unsigned integers. -/
theorem uint128_decode_encode_bijection :
    (∀ u : Uint128, u128_to_le_bytes (u128_from_le_bytes u) = u) ∧
    (∀ n : Nat, n < 2 ^ 128 → u128_from_le_bytes (u128_to_le_bytes n) = n) ∧
    Function.Bijective u128_decode := by
  have hleft : ∀ u : Uint128, u128_to_le_bytes (u128_from_le_bytes u) = u := by
    intro u
    apply Uint128.ext_bytes
    show toLeBytes 16 (fromLeBytes u.little_endian_bytes) = u.little_endian_bytes
    have := toLeBytes_fromLeBytes u.little_endian_bytes u.bytes_lt
    rwa [u.length_eq] at this
  have hright : ∀ n : Nat, n < 2 ^ 128 →
      u128_from_le_bytes (u128_to_le_bytes n) = n := by
    intro n hn
    show fromLeBytes (toLeBytes 16 n) = n
    rw [fromLeBytes_toLeBytes]
    apply Nat.mod_eq_of_lt
    calc n < 2 ^ 128 := hn
      _ = 256 ^ 16 := by norm_num
  refine ⟨hleft, hright, ?_, ?_⟩
  · intro a b hab
    have : u128_from_le_bytes a = u128_from_le_bytes b := congrArg Fin.val hab
    calc a = u128_to_le_bytes (u128_from_le_bytes a) := (hleft a).symm
      _ = u128_to_le_bytes (u128_from_le_bytes b) := by rw [this]
      _ = b := hleft b
  · intro m
    refine ⟨u128_to_le_bytes m.val, ?_⟩
    apply Fin.ext
    exact hright m.val m.isLt

/-- Claim C1 witness: the round trips evaluated at the all-ones byte pattern
and at a concrete 128-bit value. -/
theorem uint128_decode_encode_bijection_witness :
    u128_from_le_bytes (u128_to_le_bytes 300) = 300 :=
  uint128_decode_encode_bijection.2.1 300 (by norm_num)

theorem fromLeBytes_eq_sum (l : List Nat) :
    fromLeBytes l = ∑ i ∈ Finset.range l.length, l.getD i 0 * 256 ^ i := by
  induction l with
  | nil => simp [fromLeBytes]
  | cons x rest ih =>
    simp only [fromLeBytes, List.length_cons, Finset.sum_range_succ',
      List.getD_cons_succ, List.getD_cons_zero, pow_zero, Nat.mul_one, ih]
    rw [Nat.add_comm]
    congr 1
    rw [Finset.mul_sum]
    apply Finset.sum_congr rfl
    intro i _
    rw [pow_succ]
    ring

/-- Claim C2: `Uint128` is exactly 16 bytes of data and nothing else (no
padding in the model), every 16-byte pattern constructs a value with no
validation, and decoding interprets the bytes in little-endian order: byte `i`
contributes with weight `256 ^ i`, so byte 0 is least significant. -/
theorem uint128_sixteen_bytes_little_endian :
    (∀ u : Uint128, u.little_endian_bytes.length = 16) ∧
    (∀ b : List Nat, b.length = 16 → (∀ x ∈ b, x < 256) →
      ∃ u : Uint128, u.little_endian_bytes = b) ∧
    (∀ u : Uint128, u128_from_le_bytes u =
      ∑ i ∈ Finset.range 16, u.little_endian_bytes.getD i 0 * 256 ^ i) := by
  refine ⟨fun u => u.length_eq, ?_, ?_⟩
  · intro b hl hb
    exact ⟨⟨b, hl, hb⟩, rfl⟩
  · intro u
    have := fromLeBytes_eq_sum u.little_endian_bytes
    rwa [u.length_eq] at this

/-- Claim C2 witness: the construction clause evaluated on a concrete 16-byte
pattern. -/
theorem uint128_sixteen_bytes_little_endian_witness :
    ∃ u : Uint128, u.little_endian_bytes = List.replicate 16 7 :=
  uint128_sixteen_bytes_little_endian.2.1 (List.replicate 16 7)
    (by decide) (by decide)

/-- C ABI argument and return types that occur in the `CsprngVtable`
function-pointer signatures. -/
inductive CType
  | constCsprngPtr
  | mutCsprngPtr
  | mutBytePtr
  | usize
  | uint128
  deriving DecidableEq, Inhabited

/-- Calling-convention signature of one vtable entry: argument types in order,
then the return type. -/
structure FnSig where
  args : List CType
  ret : CType
  deriving DecidableEq, Inhabited

/-- One function-pointer slot of the dispatch table: its field name and its
signature. -/
structure VtableSlot where
  name : String
  sig : FnSig
  deriving DecidableEq, Inhabited

/-- `CsprngVtable` from the source, as the ordered list of its `repr(C)`
function-pointer fields: `remaining_bytes` taking `*const Csprng` and
returning `Uint128`, then `next_bytes` taking `*mut Csprng`, `*mut u8` and
`usize` and returning `usize`. -/
def CsprngVtable_layout : List VtableSlot :=
  [⟨"remaining_bytes", ⟨[CType.constCsprngPtr], CType.uint128⟩⟩,
   ⟨"next_bytes", ⟨[CType.mutCsprngPtr, CType.mutBytePtr, CType.usize],
      CType.usize⟩⟩]

/-- Claim C3: the dispatch table has exactly two function-pointer slots in
fixed order, query-remaining first and produce-bytes second; query-remaining
takes a state pointer and returns a `Uint128`, produce-bytes takes a state
pointer, a mutable buffer pointer and a requested count, and returns a count. -/
theorem csprng_vtable_two_slots_fixed_order :
    CsprngVtable_layout.length = 2 ∧
    CsprngVtable_layout.getD 0 default =
      ⟨"remaining_bytes", ⟨[CType.constCsprngPtr], CType.uint128⟩⟩ ∧
    CsprngVtable_layout.getD 1 default =
      ⟨"next_bytes", ⟨[CType.mutCsprngPtr, CType.mutBytePtr, CType.usize],
        CType.usize⟩⟩ := by
  exact ⟨rfl, rfl, rfl⟩

/-- `ScratchStatus` from the source: `repr(u32)` enumeration with variants
`Valid = 0` and `SizeOverflow = 1`. -/
inductive ScratchStatus
  | Valid
  | SizeOverflow
  deriving DecidableEq

/-- Numeric discriminant of each `ScratchStatus` variant, as assigned in the
source. -/
def ScratchStatus.toCode : ScratchStatus → Nat
  | .Valid => 0
  | .SizeOverflow => 1

/-- Bit width of the C representation of `ScratchStatus`: `repr(u32)`. -/
def ScratchStatus.reprWidthBits : Nat := 32

/-- `Parallelism` from the source: `repr(u32)` enumeration with variants
`No = 0` and `Rayon = 1`. -/
inductive Parallelism
  | No
  | Rayon
  deriving DecidableEq

/-- Numeric discriminant of each `Parallelism` variant, as assigned in the
source. -/
def Parallelism.toCode : Parallelism → Nat
  | .No => 0
  | .Rayon => 1

/-- Bit width of the C representation of `Parallelism`: `repr(u32)`. -/
def Parallelism.reprWidthBits : Nat := 32

/-- Claim C4: `ScratchStatus` is a fixed-width enumeration with numeric codes
0 for `Valid` and 1 for `SizeOverflow`, and `Parallelism` is a fixed-width
enumeration with numeric codes 0 for `No` and 1 for `Rayon`; in each
enumeration the two codes are distinct. -/
theorem enum_codes_valid_overflow_no_rayon :
    ScratchStatus.toCode ScratchStatus.Valid = 0 ∧
    ScratchStatus.toCode ScratchStatus.SizeOverflow = 1 ∧
    Parallelism.toCode Parallelism.No = 0 ∧
    Parallelism.toCode Parallelism.Rayon = 1 ∧
    (∀ a b : ScratchStatus, a.toCode = b.toCode → a = b) ∧
    (∀ a b : Parallelism, a.toCode = b.toCode → a = b) := by
  refine ⟨rfl, rfl, rfl, rfl, ?_, ?_⟩
  · intro a b h
    cases a <;> cases b <;> simp_all [ScratchStatus.toCode]
  · intro a b h
    cases a <;> cases b <;> simp_all [Parallelism.toCode]

/-- Claim C9: the fixed width of both enumerations is specifically 32 bits:
each is represented as a 4-byte unsigned value (`repr(u32)`), and every
discriminant fits in 32 bits. -/
theorem enum_repr_width_is_u32 :
    ScratchStatus.reprWidthBits = 32 ∧
    Parallelism.reprWidthBits = 32 ∧
    (∀ s : ScratchStatus, s.toCode < 2 ^ 32) ∧
    (∀ p : Parallelism, p.toCode < 2 ^ 32) := by
  refine ⟨rfl, rfl, ?_, ?_⟩
  · intro s
    cases s <;> norm_num [ScratchStatus.toCode]
  · intro p
    cases p <;> norm_num [Parallelism.toCode]

/-- Debug formatting of `Uint128` from the source: the formatter delegates to
the `u128` obtained by `u128::from_le_bytes`, whose default formatting is the
decimal numeral of the value. -/
def Uint128.fmt (u : Uint128) : String :=
  Nat.repr (u128_from_le_bytes u)

/-- Claim C10: the Debug formatting of a `Uint128` equals the decimal
formatting of the 128-bit unsigned integer obtained by little-endian decoding
of its 16 bytes, and two values with the same bytes always format
identically. -/
theorem uint128_fmt_is_decimal_of_decode :
    ∀ u : Uint128, Uint128.fmt u = Nat.repr (u128_from_le_bytes u) ∧
      ∀ v : Uint128, u.little_endian_bytes = v.little_endian_bytes →
        Uint128.fmt u = Uint128.fmt v := by
  intro u
  refine ⟨rfl, ?_⟩
  intro v h
  rw [Uint128.ext_bytes h]

/-- Claim C10 witness: the determinism clause evaluated at a concrete value. -/
theorem uint128_fmt_is_decimal_of_decode_witness :
    Uint128.fmt (u128_to_le_bytes 5) = Uint128.fmt (u128_to_le_bytes 5) :=
  (uint128_fmt_is_decimal_of_decode (u128_to_le_bytes 5)).2
    (u128_to_le_bytes 5) rfl

/-- Modelled from the spec: the opaque per-instance CSPRNG state.  The source
declares `Csprng` as an opaque handle and the concrete generators live outside
this crate, so the generator is modelled by its spec-level observables: an
upper bound `remaining` on bytes still producible, an abstract deterministic
byte `stream`, and the current `pos`ition in that stream. -/
structure CsprngState where
  remaining : Nat
  stream : Nat → Nat
  pos : Nat

/-- Modelled from the spec: the query-remaining (`remaining_bytes`) entry of
the dispatch table.  Returns the remaining-byte upper bound as a `Uint128`
together with the resulting state; the spec requires it to be pure, so the
resulting state is the input state. -/
def remaining_bytes (s : CsprngState) : Uint128 × CsprngState :=
  (u128_to_le_bytes s.remaining, s)

/-- Overwrite the first `count` entries of `buf` with stream bytes starting at
stream position `pos`, leaving the rest of the buffer untouched. -/
def writeBytes (stream : Nat → Nat) : Nat → Nat → List Nat → List Nat
  | _, 0, buf => buf
  | _, _ + 1, [] => []
  | pos, k + 1, _ :: rest => stream pos % 256 :: writeBytes stream (pos + 1) k rest

/-- Modelled from the spec: the produce-bytes (`next_bytes`) entry of the
dispatch table.  Writes up to `requested` bytes into the caller-supplied
buffer — exactly `min requested remaining` bytes, fewer than requested only
when the remaining capacity is insufficient — and returns the produced count
together with the advanced state and the updated buffer. -/
def next_bytes (s : CsprngState) (buf : List Nat) (requested : Nat) :
    Nat × CsprngState × List Nat :=
  let produced := min requested s.remaining
  (produced,
   ⟨s.remaining - produced, s.stream, s.pos + produced⟩,
   writeBytes s.stream s.pos produced buf)

/-- Claim C6: calling the query-remaining entry does not mutate the CSPRNG
state: the state it returns is the input state, any number of repeated calls
leaves the state fixed, and a subsequent produce-bytes call observes exactly
the state it would have observed without the query. -/
theorem remaining_bytes_does_not_mutate :
    (∀ s : CsprngState, (remaining_bytes s).2 = s) ∧
    (∀ (k : Nat) (s : CsprngState),
      (fun t : CsprngState => (remaining_bytes t).2)^[k] s = s) ∧
    (∀ (s : CsprngState) (buf : List Nat) (n : Nat),
      next_bytes (remaining_bytes s).2 buf n = next_bytes s buf n) := by
  refine ⟨fun s => rfl, ?_, fun s buf n => rfl⟩
  intro k s
  exact Function.iterate_fixed rfl k

/-- Claim C7: a produce-bytes call with `requested_count = 0` returns 0,
leaves every byte of the buffer unchanged, and leaves the state unchanged. -/
theorem next_bytes_zero_request_noop :
    ∀ (s : CsprngState) (buf : List Nat),
      (next_bytes s buf 0).1 = 0 ∧
      (next_bytes s buf 0).2.2 = buf ∧
      (next_bytes s buf 0).2.1 = s := by
  intro s buf
  cases s
  refine ⟨?_, ?_, ?_⟩ <;> simp [next_bytes, writeBytes]

/-- Claim C8: every produce-bytes call returns a produced count that is at
most the requested count; the return is short exactly when the remaining
capacity is insufficient (so exhaustion is communicated only by a short
return); and the interface's produce-bytes slot returns a plain count
(`usize`) — there is no separate error code or error value in its signature. -/
theorem next_bytes_short_return_only :
    ∀ (s : CsprngState) (buf : List Nat) (requested : Nat),
      (next_bytes s buf requested).1 ≤ requested ∧
      ((next_bytes s buf requested).1 < requested ↔ s.remaining < requested) ∧
      (CsprngVtable_layout.getD 1 default).sig.ret = CType.usize := by
  intro s buf requested
  refine ⟨Nat.min_le_left _ _, ?_, rfl⟩
  show min requested s.remaining < requested ↔ s.remaining < requested
  omega

/-- The size and alignment quantities a scratch-size computation combines,
step by step: each step multiplies or adds a further value. -/
inductive SizeOp
  | mul
  | add
  deriving DecidableEq

/-- Maximum representable `usize` value on the 64-bit targets the backend
supports. -/
def USIZE_MAX : Nat := 2 ^ 64 - 1

/-- Modelled from the spec: one overflow-checked arithmetic step of a
scratch-size computation (Rust `checked_mul` / `checked_add` on `usize`). -/
def checked_apply (acc : Nat) (st : SizeOp × Nat) : Option Nat :=
  match st.1 with
  | .mul => if acc * st.2 ≤ USIZE_MAX then some (acc * st.2) else none
  | .add => if acc + st.2 ≤ USIZE_MAX then some (acc + st.2) else none

/-- The same step performed over the unbounded naturals: the exact
mathematical value the step is meant to compute. -/
def exact_apply (acc : Nat) (st : SizeOp × Nat) : Nat :=
  match st.1 with
  | .mul => acc * st.2
  | .add => acc + st.2

/-- Modelled from the spec: a scratch-size computation, performed with
overflow-checked arithmetic at each step; the first overflowing step aborts
the whole computation. -/
def scratch_size_checked : Nat → List (SizeOp × Nat) → Option Nat
  | acc, [] => some acc
  | acc, st :: rest =>
    match checked_apply acc st with
    | some v => scratch_size_checked v rest
    | none => none

/-- The exact mathematical size the computation describes, over the unbounded
naturals. -/
def scratch_size_exact : Nat → List (SizeOp × Nat) → Nat
  | acc, [] => acc
  | acc, st :: rest => scratch_size_exact (exact_apply acc st) rest

/-- Whether some step of the computation leaves the representable range. -/
def any_step_overflows : Nat → List (SizeOp × Nat) → Bool
  | _, [] => false
  | acc, st :: rest =>
    if exact_apply acc st ≤ USIZE_MAX then
      any_step_overflows (exact_apply acc st) rest
    else true

/-- Modelled from the spec: the status-and-size result a sizing routine
reports, tagged with `ScratchStatus` as declared in the source. -/
def scratch_size_result (init : Nat) (steps : List (SizeOp × Nat)) :
    ScratchStatus × Nat :=
  match scratch_size_checked init steps with
  | some v => (ScratchStatus.Valid, v)
  | none => (ScratchStatus.SizeOverflow, 0)

theorem checked_apply_eq (acc : Nat) (st : SizeOp × Nat) :
    checked_apply acc st =
      if exact_apply acc st ≤ USIZE_MAX then some (exact_apply acc st)
      else none := by
  obtain ⟨op, v⟩ := st
  cases op <;> rfl

theorem scratch_size_checked_eq (init : Nat) (steps : List (SizeOp × Nat)) :
    scratch_size_checked init steps =
      if any_step_overflows init steps then none
      else some (scratch_size_exact init steps) := by
  induction steps generalizing init with
  | nil => rfl
  | cons st rest ih =>
    simp only [scratch_size_checked, any_step_overflows, scratch_size_exact,
      checked_apply_eq]
    by_cases h : exact_apply init st ≤ USIZE_MAX
    · simp [h, ih]
    · simp [h]

/-- Claim C5: a scratch-size computation performed with overflow-checked
arithmetic at each step reports `SizeOverflow` whenever any step overflows —
never a wrapped, truncated, or partially-computed size — and otherwise reports
`Valid` together with the exact mathematical size. -/
theorem scratch_size_overflow_checked :
    ∀ (init : Nat) (steps : List (SizeOp × Nat)),
      scratch_size_result init steps =
        if any_step_overflows init steps then (ScratchStatus.SizeOverflow, 0)
        else (ScratchStatus.Valid, scratch_size_exact init steps) := by
  intro init steps
  simp only [scratch_size_result, scratch_size_checked_eq]
  by_cases h : any_step_overflows init steps <;> simp [h]

/-- Claim C4 witness: the injectivity clauses evaluated at concrete
variants. -/
theorem enum_codes_valid_overflow_no_rayon_witness :
    ScratchStatus.Valid = ScratchStatus.Valid ∧
    Parallelism.Rayon = Parallelism.Rayon :=
  ⟨enum_codes_valid_overflow_no_rayon.2.2.2.2.1 ScratchStatus.Valid
      ScratchStatus.Valid rfl,
   enum_codes_valid_overflow_no_rayon.2.2.2.2.2 Parallelism.Rayon
      Parallelism.Rayon rfl⟩
